import Mathlib

/-
Verification development for perfkitbenchmarker/scripts/spark_sql_runner.py.

The script is a thin adapter over PySpark: it parses command-line options,
registers BigQuery tables and HCFS parquet directories as temporary views,
reads a SQL file and runs it, printing all rows.  The definitions below are a
shallow embedding of that script: Python strings become Lean String, Python
lists become List, the Spark session is modelled by the trace of engine calls
it receives, and the effectful steps of main are driven by a World oracle that
assigns an outcome ("Except") to each fallible operation, since the engine and
the filesystem are external collaborators.
-/

set_option autoImplicit false

/-! ## Python string splitting

Embedding of the Python expression `s.split(sep)` for a one-character
separator, and of negative indexing `lst[-1]` on the (always non-empty)
result of a split. -/

/-- Character-list version of Python `split` with a one-character separator:
splits at every occurrence of the separator and keeps empty pieces, so the
result is always non-empty. -/
def pysplitList (sep : Char) : List Char → List (List Char)
  | [] => [[]]
  | c :: cs =>
    if c = sep then [] :: pysplitList sep cs
    else
      match pysplitList sep cs with
      | [] => [[c]]
      | w :: ws => (c :: w) :: ws

/-- Python `s.split(sep)` for a one-character separator `sep`. -/
def pysplit (sep : Char) (s : String) : List String :=
  (pysplitList sep s.toList).map (fun cs => String.mk cs)

/-- Python `lst[-1]`.  The lists this is applied to in the script are results
of `split` and hence non-empty, so the default is never consulted. -/
def pyIndexNeg1 (l : List String) : String :=
  l.getLastD ""

/-- The suffix of a character list after its last occurrence of `sep`
(the whole list when `sep` does not occur): the final dot-separated
component or final path segment in the words of the specification. -/
def finalComponentList (sep : Char) (l : List Char) : List Char :=
  (l.reverse.takeWhile (fun c => !(c = sep))).reverse

/-- The substring of `s` after the last occurrence of `sep`. -/
def finalComponent (sep : Char) (s : String) : String :=
  String.mk (finalComponentList sep s.toList)

/-! ## Spark reader and DataFrame model

`spark.read` produces a `DataFrameReader`; `.format` sets the source format
and `.option` appends a key/value option.  PySpark `DataFrameReader.option`
mutates the receiver in place and returns it, so the statement
`reader.option('readDataFormat', fmt)` in the script updates `reader` even
though its result is discarded; the embedding rebinds the reader variable at
that point.  A loaded DataFrame is identified by the reader that produced it
and the optional path argument given to `load`. -/

structure DataFrameReader where
  fmt : String
  options : List (String × String)
deriving DecidableEq

/-- `spark.read`: a fresh reader with no format and no options. -/
def sparkRead : DataFrameReader := { fmt := "", options := [] }

/-- `reader.format(f)`. -/
def DataFrameReader.format (r : DataFrameReader) (f : String) : DataFrameReader :=
  { r with fmt := f }

/-- `reader.option(k, v)`. -/
def DataFrameReader.option (r : DataFrameReader) (k v : String) : DataFrameReader :=
  { r with options := r.options ++ [(k, v)] }

/-- Python truthiness of the optional `bigquery_record_format` argument:
`None` and the empty string are falsy, every other string is truthy. -/
def pyTruthy : Option String → Bool
  | none => false
  | some s => !(s = "")

/-- The reader built for one BigQuery table in `register_views`:
`spark.read.format('bigquery').option('table', table)`, then
`reader.option('readDataFormat', bigquery_record_format)` when
`bigquery_record_format` is truthy. -/
def bigqueryReader (table : String) (bigquery_record_format : Option String) :
    DataFrameReader :=
  let reader := (sparkRead.format "bigquery").option "table" table
  if pyTruthy bigquery_record_format then
    reader.option "readDataFormat" (bigquery_record_format.getD "")
  else reader

/-- The reader built for one HCFS directory: `spark.read.format('parquet')`. -/
def parquetReader : DataFrameReader := sparkRead.format "parquet"

/-- A loaded DataFrame: the reader that produced it and the optional path
passed to `load`. -/
structure DataFrame where
  reader : DataFrameReader
  path : Option String
deriving DecidableEq

/-- Does the reader of `df` carry a `readDataFormat` option? -/
def hasRecordFormatOption (r : DataFrameReader) : Bool :=
  r.options.any (fun kv => kv.1 = "readDataFormat")

/-! ## Engine calls

The observable interaction with the Spark session, in order. -/

inductive Call where
  /-- `SparkSession.builder.appName(...).getOrCreate()` -/
  | getOrCreate
  /-- `reader.load()` or `reader.load(path)` -/
  | load (reader : DataFrameReader) (path : Option String)
  /-- `df.createTempView(name)` -/
  | createTempView (name : String) (df : DataFrame)
  /-- `spark.sql(query)` -/
  | sql (query : String)
  /-- `df.show(numRows)` -/
  | dfShow (numRows : Nat)
deriving DecidableEq

/-- Is the call a `createTempView`? -/
def isTempViewCall : Call → Bool
  | Call.createTempView _ _ => true
  | _ => false

/-- The subsequence of `createTempView` calls of a trace. -/
def tempViews (calls : List Call) : List Call :=
  calls.filter isTempViewCall

/-- The names passed to `createTempView`, in call order. -/
def viewNames (calls : List Call) : List String :=
  calls.filterMap fun c =>
    match c with
    | Call.createTempView name _ => some name
    | _ => none

/-- The source formats of the DataFrames passed to `createTempView`,
in call order. -/
def viewFormats (calls : List Call) : List String :=
  calls.filterMap fun c =>
    match c with
    | Call.createTempView _ df => some df.reader.fmt
    | _ => none

/-- Does every `createTempView` of a BigQuery DataFrame precede every
`createTempView` of a non-BigQuery (parquet) DataFrame in the trace? -/
def remotesBeforeDirs (calls : List Call) : Bool :=
  ((viewFormats calls).dropWhile (fun f => f = "bigquery")).all
    (fun f => !(f = "bigquery"))

/-! ## Python dict model

`temp_dfs` is a Python dict: assignment to an existing key replaces the value
in place (keeping the key position), assignment to a fresh key appends, and
iteration follows insertion order. -/

/-- `d[k] = v` on an insertion-ordered association list. -/
def dictUpdate {β : Type} (m : List (String × β)) (k : String) (v : β) :
    List (String × β) :=
  match m with
  | [] => [(k, v)]
  | p :: rest => if p.1 = k then (k, v) :: rest else p :: dictUpdate rest k v

/-- `d[k]` as an option (first matching key; keys are unique here). -/
def lookupName {β : Type} : List (String × β) → String → Option β
  | [], _ => none
  | p :: rest, k => if p.1 = k then some p.2 else lookupName rest k

/-- The value of the last entry of `l` whose key is `k`: the binding the
later-listed source would leave behind. -/
def lastWrite {β : Type} : List (String × β) → String → Option β
  | [], _ => none
  | p :: rest, k =>
    match lastWrite rest k with
    | some v => some v
    | none => if p.1 = k then some p.2 else none

/-! ## register_views -/

/-- The (derived name, DataFrame) pair produced for one BigQuery table. -/
def bqAssoc (bigquery_record_format : Option String) (table : String) :
    String × DataFrame :=
  (pyIndexNeg1 (pysplit '.' table),
   { reader := bigqueryReader table bigquery_record_format, path := none })

/-- The (derived name, DataFrame) pair produced for one HCFS directory. -/
def dirAssoc (hcfs_dir : String) : String × DataFrame :=
  (pyIndexNeg1 (pysplit '/' hcfs_dir),
   { reader := parquetReader, path := some hcfs_dir })

/-- All (name, DataFrame) assignments performed on `temp_dfs`, in program
order: BigQuery tables first, then HCFS directories. -/
def sourceAssocs (bigquery_tables hcfs_dirs : List String)
    (bigquery_record_format : Option String) : List (String × DataFrame) :=
  bigquery_tables.map (bqAssoc bigquery_record_format) ++ hcfs_dirs.map dirAssoc

/-- Embedding of `register_views(spark, bigquery_tables, hcfs_dirs,
bigquery_record_format)`.  Returns the final `temp_dfs` dict and the trace of
engine calls: one `load` per source in loop order, then one `createTempView`
per dict entry in dict iteration order.  The `logging.info` calls have no
engine-visible effect and are not modelled. -/
def register_views (bigquery_tables hcfs_dirs : List String)
    (bigquery_record_format : Option String) :
    List (String × DataFrame) × List Call :=
  let s1 := bigquery_tables.foldl
    (fun s table =>
      (dictUpdate s.1 (pyIndexNeg1 (pysplit '.' table))
        { reader := bigqueryReader table bigquery_record_format, path := none },
       s.2 ++ [Call.load (bigqueryReader table bigquery_record_format) none]))
    (([] : List (String × DataFrame)), ([] : List Call))
  let s2 := hcfs_dirs.foldl
    (fun s hcfs_dir =>
      (dictUpdate s.1 (pyIndexNeg1 (pysplit '/' hcfs_dir))
        { reader := parquetReader, path := some hcfs_dir },
       s.2 ++ [Call.load parquetReader (some hcfs_dir)]))
    s1
  (s2.1, s2.2 ++ s2.1.map (fun p => Call.createTempView p.1 p.2))

/-! ## Argument parsing

The script configures an `argparse` parser: one required positional
`sql_script`, a mutually exclusive group holding `--bigquery-tables` and
`--hcfs-dirs` (each with `type=comma_separated_list` and `default=[]`), and a
free-standing `--bigquery-record-format` (default `None`).  An argument
vector is abstracted to which options it supplies and with what raw string
values; `parse_args` below models the behavior of the argparse library on
exactly this parser configuration: a usage error when both group members are
supplied or the positional is missing, comma-splitting of supplied list
options, and the declared defaults otherwise. -/

structure Argv where
  sql_script : Option String
  bigquery_tables : Option String
  bigquery_record_format : Option String
  hcfs_dirs : Option String
deriving DecidableEq

inductive UsageError where
  | mutuallyExclusiveOptions
  | missingRequiredArgument
deriving DecidableEq

structure Config where
  sql_script : String
  bigquery_tables : List String
  bigquery_record_format : Option String
  hcfs_dirs : List String
deriving DecidableEq

/-- `parse_args()`: the argparse parser built by the script, applied to an
abstracted argument vector. -/
def parse_args (a : Argv) : Except UsageError Config :=
  if a.bigquery_tables.isSome && a.hcfs_dirs.isSome then
    .error .mutuallyExclusiveOptions
  else
    match a.sql_script with
    | none => .error .missingRequiredArgument
    | some script =>
      .ok { sql_script := script
          , bigquery_tables :=
              match a.bigquery_tables with
              | none => []
              | some s => pysplit ',' s
          , bigquery_record_format := a.bigquery_record_format
          , hcfs_dirs :=
              match a.hcfs_dirs with
              | none => []
              | some s => pysplit ',' s }

/-! ## main -/

/-- `java.lang.Integer.MAX_VALUE`, the argument passed to `show`. -/
def javaIntegerMaxValue : Nat := 2147483647

/-- `df.show(numRows)` prints the first `numRows` rows of the result. -/
def showRows (rows : List Nat) (numRows : Nat) : List Nat :=
  rows.take numRows

/-- Errors that the external collaborators can raise. -/
inductive Err where
  /-- filesystem error, for example the query file is unreadable -/
  | ioError (msg : String)
  /-- error raised by the engine: unreachable source, bad query, ... -/
  | engineError (msg : String)
deriving DecidableEq

/-- The diagnostic text of an error. -/
def errMsg : Err → String
  | Err.ioError msg => msg
  | Err.engineError msg => msg

/-- Oracle fixing the outcome of every fallible external operation: whether
the engine raises while loading or registering the views, the contents of the
query file, and the rows the query produces.  Rows are abstracted to `Nat`. -/
structure World where
  registerOutcome : Except Err Unit
  readFile : String → Except Err String
  runQuery : String → Except Err (List Nat)

/-- The observable outcome of a successful run of `main`: the engine calls
made and the rows printed by `show`. -/
structure RunResult where
  calls : List Call
  printed : List Nat
deriving DecidableEq

/-- Embedding of `main(args)`: create the session, register the views, read
the query file, run the query and show the result with
`java.lang.Integer.MAX_VALUE` as the row limit.  There is no handler around
any step, so the first error is the result of `main`. -/
def mainE (w : World) (cfg : Config) : Except Err RunResult :=
  let vr := register_views cfg.bigquery_tables cfg.hcfs_dirs
    cfg.bigquery_record_format
  match w.registerOutcome with
  | .error e => .error e
  | .ok _ =>
    match w.readFile cfg.sql_script with
    | .error e => .error e
    | .ok sql =>
      match w.runQuery sql with
      | .error e => .error e
      | .ok rows =>
        .ok { calls := Call.getOrCreate :: vr.2
                ++ [Call.sql sql, Call.dfShow javaIntegerMaxValue]
            , printed := showRows rows javaIntegerMaxValue }

/-- The text argparse writes to stderr with a usage error. -/
def usageText : UsageError → String
  | UsageError.mutuallyExclusiveOptions =>
      "usage error: the data source options are mutually exclusive"
  | UsageError.missingRequiredArgument =>
      "usage error: the sql_script argument is required"

/-- What the process reports when it exits. -/
structure ProcessResult where
  exitCode : Nat
  output : Option RunResult
  diagnostic : Option String
deriving DecidableEq

/-- The whole process: `main(parse_args())`.  An argparse usage error exits
with code 2 before `main` starts; an uncaught exception from `main` ends the
interpreter with exit code 1 and a diagnostic; otherwise the exit code is 0. -/
def runProcess (w : World) (a : Argv) : ProcessResult :=
  match parse_args a with
  | .error ue => { exitCode := 2, output := none, diagnostic := some (usageText ue) }
  | .ok cfg =>
    match mainE w cfg with
    | .error e => { exitCode := 1, output := none, diagnostic := some (errMsg e) }
    | .ok r => { exitCode := 0, output := some r, diagnostic := none }

/-- A world in which every external operation succeeds trivially. -/
def idleWorld : World :=
  { registerOutcome := .ok ()
  , readFile := fun _ => .ok ""
  , runQuery := fun _ => .ok [] }

/-- A world whose query file reads `SELECT 1` and whose query yields one row. -/
def selectOneWorld : World :=
  { registerOutcome := .ok ()
  , readFile := fun _ => .ok "SELECT 1"
  , runQuery := fun _ => .ok [1] }

/-- A world in which reading the query file fails. -/
def failReadWorld : World :=
  { registerOutcome := .ok ()
  , readFile := fun _ => .error (Err.ioError "cannot read query file")
  , runQuery := fun _ => .ok [] }

/-- An argument vector supplying only the positional query-file path. -/
def argvSimple : Argv :=
  { sql_script := some "q.sql"
  , bigquery_tables := none
  , bigquery_record_format := none
  , hcfs_dirs := none }

/-- The configuration that `argvSimple` parses to. -/
def cfgSimple : Config :=
  { sql_script := "q.sql"
  , bigquery_tables := []
  , bigquery_record_format := none
  , hcfs_dirs := [] }

/-! ## Helper lemmas: the dict model -/

theorem lookupName_dictUpdate {β : Type} (m : List (String × β)) (k k' : String)
    (v : β) :
    lookupName (dictUpdate m k v) k' = if k' = k then some v else lookupName m k' := by
  induction m with
  | nil =>
    by_cases h : k' = k
    · subst h; simp [dictUpdate, lookupName]
    · simp [dictUpdate, lookupName, h, Ne.symm h]
  | cons p rest ih =>
    simp only [dictUpdate]
    by_cases hp : p.1 = k
    · rw [if_pos hp]
      by_cases h : k' = k
      · subst h; simp [lookupName]
      · have hpk : ¬ p.1 = k' := by rw [hp]; exact fun hh => h hh.symm
        simp [lookupName, h, hpk, Ne.symm h]
    · rw [if_neg hp]
      simp only [lookupName]
      by_cases hk : p.1 = k'
      · have h : ¬ k' = k := fun hh => hp (by rw [hk, hh])
        simp [hk, h]
      · simp [hk, ih]

theorem lookupName_foldl_dictUpdate {β : Type} (l : List (String × β))
    (m : List (String × β)) (k : String) :
    lookupName (l.foldl (fun m p => dictUpdate m p.1 p.2) m) k =
      match lastWrite l k with
      | some v => some v
      | none => lookupName m k := by
  induction l generalizing m with
  | nil => simp [lastWrite]
  | cons p rest ih =>
    simp only [List.foldl_cons, lastWrite]
    rw [ih]
    cases hlw : lastWrite rest k with
    | some v => simp
    | none =>
      simp only
      rw [lookupName_dictUpdate]
      by_cases h : k = p.1
      · simp [h]
      · have hp : ¬ p.1 = k := fun hh => h hh.symm
        rw [if_neg h, if_neg hp]

theorem keys_dictUpdate {β : Type} (m : List (String × β)) (k : String) (v : β) :
    (dictUpdate m k v).map Prod.fst =
      if k ∈ m.map Prod.fst then m.map Prod.fst else m.map Prod.fst ++ [k] := by
  induction m with
  | nil => simp [dictUpdate]
  | cons p rest ih =>
    simp only [dictUpdate, List.map_cons]
    by_cases hp : p.1 = k
    · rw [if_pos hp, if_pos]
      · simp [hp]
      · exact List.mem_cons.mpr (Or.inl hp.symm)
    · rw [if_neg hp]
      simp only [List.map_cons, ih]
      by_cases hm : k ∈ rest.map Prod.fst
      · rw [if_pos hm, if_pos (List.mem_cons.mpr (Or.inr hm))]
      · rw [if_neg hm, if_neg]
        · simp
        · intro hmem
          rcases List.mem_cons.mp hmem with h | h
          · exact hp h.symm
          · exact hm h

theorem dictUpdate_of_not_mem {β : Type} (m : List (String × β)) (k : String)
    (v : β) (h : k ∉ m.map Prod.fst) :
    dictUpdate m k v = m ++ [(k, v)] := by
  induction m with
  | nil => rfl
  | cons p rest ih =>
    have hp : ¬ p.1 = k := fun hh => h (List.mem_cons.mpr (Or.inl hh.symm))
    have hr : k ∉ rest.map Prod.fst := fun hh => h (List.mem_cons.mpr (Or.inr hh))
    simp [dictUpdate, hp, ih hr]

theorem nodup_keys_dictUpdate {β : Type} (m : List (String × β)) (k : String)
    (v : β) (h : (m.map Prod.fst).Nodup) :
    ((dictUpdate m k v).map Prod.fst).Nodup := by
  rw [keys_dictUpdate]
  by_cases hm : k ∈ m.map Prod.fst
  · rw [if_pos hm]; exact h
  · rw [if_neg hm]
    rw [List.nodup_append]
    refine ⟨h, List.nodup_singleton k, ?_⟩
    intro a ha hak
    rw [List.mem_singleton.mp hak] at ha
    exact hm ha

theorem nodup_keys_foldl_dictUpdate {β : Type} (l : List (String × β))
    (m : List (String × β)) (h : (m.map Prod.fst).Nodup) :
    (((l.foldl (fun m p => dictUpdate m p.1 p.2) m)).map Prod.fst).Nodup := by
  induction l generalizing m with
  | nil => exact h
  | cons p rest ih => exact ih _ (nodup_keys_dictUpdate _ _ _ h)

theorem foldl_dictUpdate_of_nodup {β : Type} (l : List (String × β))
    (m : List (String × β))
    (h : (m.map Prod.fst ++ l.map Prod.fst).Nodup) :
    l.foldl (fun m p => dictUpdate m p.1 p.2) m = m ++ l := by
  induction l generalizing m with
  | nil => simp
  | cons p rest ih =>
    have hp : p.1 ∉ m.map Prod.fst := by
      intro hmem
      rw [List.nodup_append] at h
      exact h.2.2 hmem (by simp)
    rw [List.foldl_cons, dictUpdate_of_not_mem m p.1 p.2 hp, ih]
    · simp
    · have : (m ++ [p]).map Prod.fst ++ rest.map Prod.fst
          = m.map Prod.fst ++ (p :: rest).map Prod.fst := by
        simp
      rw [this]
      exact h

/-! ## Helper lemmas: loop structure of register_views -/

theorem bqLoop_eq (fmt : Option String) (l : List String)
    (s : List (String × DataFrame) × List Call) :
    l.foldl (fun s table =>
      (dictUpdate s.1 (pyIndexNeg1 (pysplit '.' table))
        { reader := bigqueryReader table fmt, path := none },
       s.2 ++ [Call.load (bigqueryReader table fmt) none])) s
    = ((l.map (bqAssoc fmt)).foldl (fun m p => dictUpdate m p.1 p.2) s.1,
       s.2 ++ l.map (fun t => Call.load (bigqueryReader t fmt) none)) := by
  induction l generalizing s with
  | nil => simp
  | cons t rest ih => simp [ih, bqAssoc, List.append_assoc]

theorem dirLoop_eq (l : List String)
    (s : List (String × DataFrame) × List Call) :
    l.foldl (fun s hcfs_dir =>
      (dictUpdate s.1 (pyIndexNeg1 (pysplit '/' hcfs_dir))
        { reader := parquetReader, path := some hcfs_dir },
       s.2 ++ [Call.load parquetReader (some hcfs_dir)])) s
    = ((l.map dirAssoc).foldl (fun m p => dictUpdate m p.1 p.2) s.1,
       s.2 ++ l.map (fun d => Call.load parquetReader (some d))) := by
  induction l generalizing s with
  | nil => simp
  | cons d rest ih => simp [ih, dirAssoc, List.append_assoc]

theorem register_views_eq (tables dirs : List String) (fmt : Option String) :
    register_views tables dirs fmt =
      ((sourceAssocs tables dirs fmt).foldl (fun m p => dictUpdate m p.1 p.2) [],
       tables.map (fun t => Call.load (bigqueryReader t fmt) none)
         ++ dirs.map (fun d => Call.load parquetReader (some d))
         ++ ((sourceAssocs tables dirs fmt).foldl
              (fun m p => dictUpdate m p.1 p.2) []).map
              (fun p => Call.createTempView p.1 p.2)) := by
  unfold register_views
  rw [bqLoop_eq]
  dsimp only
  rw [dirLoop_eq]
  simp [sourceAssocs, List.foldl_append, List.append_assoc]

/-! ## Helper lemmas: Python split and final components -/

theorem takeWhile_append_all {α : Type} (p : α → Bool) (xs ys : List α) :
    (xs ++ ys).takeWhile p =
      if xs.all p then xs ++ ys.takeWhile p else xs.takeWhile p := by
  induction xs with
  | nil => simp
  | cons a xs ih =>
    by_cases ha : p a = true
    · rw [List.cons_append, List.takeWhile_cons_of_pos ha, ih, List.all_cons, ha]
      by_cases hall : xs.all p = true
      · simp [hall]
      · simp [hall, List.takeWhile_cons_of_pos ha]
    · have ha2 : p a = false := Bool.eq_false_iff.mpr ha
      rw [List.cons_append, List.takeWhile_cons_of_neg ha, List.all_cons, ha2]
      simp [List.takeWhile_cons_of_neg ha]

theorem pysplitList_ne_nil (sep : Char) (l : List Char) :
    pysplitList sep l ≠ [] := by
  cases l with
  | nil => simp [pysplitList]
  | cons c cs =>
    simp only [pysplitList]
    split
    · simp
    · split <;> simp

theorem pysplitList_of_not_mem (sep : Char) (l : List Char) (h : sep ∉ l) :
    pysplitList sep l = [l] := by
  induction l with
  | nil => rfl
  | cons c cs ih =>
    have hc : ¬ c = sep := fun hh => h (hh ▸ List.mem_cons_self c cs)
    have hcs : sep ∉ cs := fun hh => h (List.mem_cons_of_mem c hh)
    simp only [pysplitList, if_neg hc, ih hcs]

theorem pysplitList_tail_ne_nil (sep : Char) (l : List Char) (h : sep ∈ l) :
    ∃ w ws, pysplitList sep l = w :: ws ∧ ws ≠ [] := by
  induction l with
  | nil => cases h
  | cons c cs ih =>
    by_cases hc : c = sep
    · refine ⟨[], pysplitList sep cs, ?_, pysplitList_ne_nil sep cs⟩
      simp [pysplitList, hc]
    · have hcs : sep ∈ cs := by
        rcases List.mem_cons.mp h with h1 | h1
        · exact absurd h1.symm hc
        · exact h1
      obtain ⟨w, ws, hws, hne⟩ := ih hcs
      refine ⟨c :: w, ws, ?_, hne⟩
      simp [pysplitList, hc, hws]

theorem getLastD_cons_irrel {α : Type} (b : α) (l : List α) (d1 d2 : α) :
    (b :: l).getLastD d1 = (b :: l).getLastD d2 := by
  rw [List.getLastD_cons, List.getLastD_cons]

theorem pysplitList_getLastD_cons (sep c : Char) (cs : List Char) :
    (pysplitList sep (c :: cs)).getLastD [] =
      if c = sep then (pysplitList sep cs).getLastD []
      else if sep ∈ cs then (pysplitList sep cs).getLastD []
      else c :: cs := by
  by_cases hc : c = sep
  · rw [if_pos hc]
    have : pysplitList sep (c :: cs) = [] :: pysplitList sep cs := by
      simp [pysplitList, hc]
    rw [this, List.getLastD_cons]
  · rw [if_neg hc]
    by_cases hm : sep ∈ cs
    · rw [if_pos hm]
      obtain ⟨w, ws, hws, hne⟩ := pysplitList_tail_ne_nil sep cs hm
      have hsp : pysplitList sep (c :: cs) = (c :: w) :: ws := by
        simp [pysplitList, hc, hws]
      rw [hsp, hws, List.getLastD_cons, List.getLastD_cons]
      cases ws with
      | nil => exact absurd rfl hne
      | cons b bs => exact getLastD_cons_irrel b bs (c :: w) w
    · rw [if_neg hm]
      have hsp : pysplitList sep (c :: cs) = [c :: cs] := by
        simp [pysplitList, hc, pysplitList_of_not_mem sep cs hm]
      rw [hsp]
      rfl

theorem finalComponentList_cons (sep c : Char) (cs : List Char) :
    finalComponentList sep (c :: cs) =
      if sep ∈ cs then finalComponentList sep cs
      else if c = sep then cs
      else c :: cs := by
  have hmem : ((cs.reverse.all fun x => !(x = sep)) = true) ↔ sep ∉ cs := by
    rw [List.all_eq_true]
    constructor
    · intro hall hin
      have := hall sep (List.mem_reverse.mpr hin)
      simp at this
    · intro hni x hx
      have hxs : ¬ x = sep := fun hh => hni (hh ▸ List.mem_reverse.mp hx)
      simp [hxs]
  unfold finalComponentList
  rw [List.reverse_cons, takeWhile_append_all]
  by_cases hm : sep ∈ cs
  · have hfalse : (cs.reverse.all fun x => !(x = sep)) = false :=
      Bool.eq_false_iff.mpr (fun hh => (hmem.mp hh) hm)
    rw [if_neg (by simp [hfalse]), if_pos hm]
  · have hall : (cs.reverse.all fun x => !(x = sep)) = true := hmem.mpr hm
    rw [if_pos hall, if_neg hm]
    by_cases hc : c = sep
    · rw [if_pos hc]
      have h1 : List.takeWhile (fun x => !(x = sep)) [c] = [] := by simp [hc]
      rw [h1, List.append_nil, List.reverse_reverse]
    · rw [if_neg hc]
      have h1 : List.takeWhile (fun x => !(x = sep)) [c] = [c] := by simp [hc]
      rw [h1]
      simp

theorem finalComponentList_of_not_mem (sep : Char) (l : List Char)
    (h : sep ∉ l) :
    finalComponentList sep l = l := by
  unfold finalComponentList
  have h1 : l.reverse.takeWhile (fun x => !(x = sep)) = l.reverse ++ [] := by
    rw [← List.append_nil l.reverse, takeWhile_append_all, if_pos]
    · simp
    · rw [List.all_eq_true]
      intro x hx
      have hxs : ¬ x = sep :=
        fun hh => h (hh ▸ List.mem_reverse.mp (by simpa using hx))
      simp [hxs]
  rw [h1, List.append_nil, List.reverse_reverse]

theorem pysplitList_getLastD_eq (sep : Char) (l : List Char) :
    (pysplitList sep l).getLastD [] = finalComponentList sep l := by
  induction l with
  | nil => rfl
  | cons c cs ih =>
    rw [pysplitList_getLastD_cons, finalComponentList_cons]
    by_cases hc : c = sep
    · rw [if_pos hc]
      by_cases hm : sep ∈ cs
      · rw [if_pos hm, ih]
      · rw [if_neg hm, if_pos hc, ih, finalComponentList_of_not_mem sep cs hm]
    · rw [if_neg hc]
      by_cases hm : sep ∈ cs
      · rw [if_pos hm, if_pos hm, ih]
      · rw [if_neg hm, if_neg hm, if_neg hc]

theorem getLastD_map {α β : Type} (f : α → β) (l : List α) (d : α) :
    (l.map f).getLastD (f d) = f (l.getLastD d) := by
  induction l generalizing d with
  | nil => rfl
  | cons a rest ih => rw [List.map_cons, List.getLastD_cons, List.getLastD_cons, ih]

theorem pyIndexNeg1_pysplit (sep : Char) (s : String) :
    pyIndexNeg1 (pysplit sep s) = finalComponent sep s := by
  unfold pyIndexNeg1 pysplit finalComponent
  have h0 : ("" : String) = String.mk [] := rfl
  rw [h0, getLastD_map (fun cs => String.mk cs) (pysplitList sep s.toList) []]
  rw [pysplitList_getLastD_eq]

/-! ## Helper lemmas: the register_views trace -/

theorem tempViews_register_views (tables dirs : List String)
    (fmt : Option String) :
    tempViews (register_views tables dirs fmt).2 =
      ((register_views tables dirs fmt).1).map
        (fun p => Call.createTempView p.1 p.2) := by
  rw [register_views_eq]
  unfold tempViews
  simp only [List.filter_append]
  have h1 : List.filter isTempViewCall
      (tables.map fun t => Call.load (bigqueryReader t fmt) none) = [] := by
    rw [List.filter_eq_nil_iff]
    intro c hc
    rcases List.mem_map.mp hc with ⟨t, _, rfl⟩
    simp [isTempViewCall]
  have h2 : List.filter isTempViewCall
      (dirs.map fun d => Call.load parquetReader (some d)) = [] := by
    rw [List.filter_eq_nil_iff]
    intro c hc
    rcases List.mem_map.mp hc with ⟨d, _, rfl⟩
    simp [isTempViewCall]
  have h3 : ∀ (m : List (String × DataFrame)),
      List.filter isTempViewCall (m.map fun p => Call.createTempView p.1 p.2) =
        m.map fun p => Call.createTempView p.1 p.2 := by
    intro m
    rw [List.filter_eq_self]
    intro c hc
    rcases List.mem_map.mp hc with ⟨p, _, rfl⟩
    simp [isTempViewCall]
  rw [h1, h2, h3]
  simp

theorem filterMap_none_fun {α β : Type} (l : List α) :
    l.filterMap (fun _ => (none : Option β)) = [] := by
  induction l with
  | nil => rfl
  | cons x xs ih => simp [List.filterMap_cons, ih]

theorem filterMap_some_fst {β : Type} (m : List (String × β)) :
    m.filterMap (fun p => some p.1) = m.map Prod.fst := by
  induction m with
  | nil => rfl
  | cons p rest ih => simp [List.filterMap_cons, ih]

theorem viewNames_register_views (tables dirs : List String)
    (fmt : Option String) :
    viewNames (register_views tables dirs fmt).2 =
      ((register_views tables dirs fmt).1).map Prod.fst := by
  rw [register_views_eq]
  unfold viewNames
  simp only [List.filterMap_append, List.filterMap_map]
  have e1 : ((fun c => match c with
      | Call.createTempView name _ => some name
      | _ => none) ∘ (fun t => Call.load (bigqueryReader t fmt) none))
      = fun _ => (none : Option String) := funext fun t => rfl
  have e2 : ((fun c => match c with
      | Call.createTempView name _ => some name
      | _ => none) ∘ (fun d => Call.load parquetReader (some d)))
      = fun _ => (none : Option String) := funext fun d => rfl
  have e3 : ((fun c => match c with
      | Call.createTempView name _ => some name
      | _ => none) ∘ (fun p : String × DataFrame => Call.createTempView p.1 p.2))
      = fun p : String × DataFrame => some p.1 := funext fun p => rfl
  rw [e1, e2, e3, filterMap_none_fun, filterMap_none_fun, filterMap_some_fst]
  simp

theorem register_views_keys_nodup (tables dirs : List String)
    (fmt : Option String) :
    (((register_views tables dirs fmt).1).map Prod.fst).Nodup := by
  rw [register_views_eq]
  exact nodup_keys_foldl_dictUpdate _ [] (by simp)

theorem no_show_in_register (tables dirs : List String) (fmt : Option String)
    (n : Nat) :
    Call.dfShow n ∉ (register_views tables dirs fmt).2 := by
  intro hmem
  rw [register_views_eq] at hmem
  simp only [List.mem_append, List.mem_map] at hmem
  rcases hmem with (⟨t, _, ht⟩ | ⟨d, _, hd⟩) | ⟨p, _, hp⟩
  · cases ht
  · cases hd
  · cases hp

/-! ## Helper lemmas: key membership -/

theorem lastWrite_isSome_of_mem {β : Type} (l : List (String × β)) (k : String)
    (h : k ∈ l.map Prod.fst) :
    ∃ v, lastWrite l k = some v := by
  induction l with
  | nil => simp at h
  | cons p rest ih =>
    simp only [lastWrite]
    cases hlw : lastWrite rest k with
    | some v => exact ⟨v, rfl⟩
    | none =>
      simp only [List.map_cons] at h
      rcases List.mem_cons.mp h with h1 | h1
      · exact ⟨p.2, by simp [h1.symm]⟩
      · obtain ⟨v, hv⟩ := ih h1
        rw [hv] at hlw
        cases hlw

theorem mem_keys_of_lookupName_isSome {β : Type} (m : List (String × β))
    (k : String) (v : β) (h : lookupName m k = some v) :
    k ∈ m.map Prod.fst := by
  induction m with
  | nil => simp [lookupName] at h
  | cons p rest ih =>
    simp only [lookupName] at h
    simp only [List.map_cons]
    by_cases hp : p.1 = k
    · exact List.mem_cons.mpr (Or.inl hp.symm)
    · rw [if_neg hp] at h
      exact List.mem_cons.mpr (Or.inr (ih h))

/-! ## Claim theorems -/

/-- Claim C3: for any configuration in which two data sources derive the same
view name, the view bound under that name after register_views is the one from
the later-listed source, with remote tables preceding directories and each
list in order; the earlier binding is silently replaced with no merge and no
error.  Stated generally: looking a name up in the final dict equals the last
write among the source assignments in program order, the engine receives
exactly one createTempView per dict entry, and on a concrete collision the
directory source listed later wins. -/
theorem later_source_wins (tables dirs : List String) (fmt : Option String)
    (name : String) :
    lookupName (register_views tables dirs fmt).1 name =
      lastWrite (sourceAssocs tables dirs fmt) name ∧
    tempViews (register_views tables dirs fmt).2 =
      ((register_views tables dirs fmt).1).map
        (fun p => Call.createTempView p.1 p.2) ∧
    lookupName (register_views ["a.b.t"] ["/x/t"] none).1 "t" =
      some { reader := parquetReader, path := some "/x/t" } := by
  refine ⟨?_, tempViews_register_views tables dirs fmt, by decide⟩
  rw [register_views_eq]
  dsimp only
  rw [lookupName_foldl_dictUpdate]
  cases hlw : lastWrite (sourceAssocs tables dirs fmt) name <;> simp [lookupName]

/-- Claim C7: for every remote-table identifier the derived view name is its
final dot-separated component, and in particular the identifier
proj.dataset.table derives the view name table. -/
theorem table_view_name_last_dot_component (tables dirs : List String)
    (fmt : Option String) (t : String) (ht : t ∈ tables) :
    pyIndexNeg1 (pysplit '.' t) = finalComponent '.' t ∧
    finalComponent '.' t ∈ ((register_views tables dirs fmt).1).map Prod.fst ∧
    ((register_views [t] [] fmt).1).map Prod.fst = [finalComponent '.' t] ∧
    ((register_views ["proj.dataset.table"] [] none).1).map Prod.fst
      = ["table"] := by
  have hk1 : (bqAssoc fmt t).1 = finalComponent '.' t := by
    simp [bqAssoc, pyIndexNeg1_pysplit]
  refine ⟨pyIndexNeg1_pysplit '.' t, ?_, ?_, by decide⟩
  · have hkey : (bqAssoc fmt t).1 ∈ (sourceAssocs tables dirs fmt).map Prod.fst := by
      unfold sourceAssocs
      rw [List.map_append]
      exact List.mem_append_left _
        (List.mem_map.mpr ⟨bqAssoc fmt t, List.mem_map_of_mem _ ht, rfl⟩)
    obtain ⟨v, hv⟩ := lastWrite_isSome_of_mem _ _ hkey
    have hlk : lookupName ((sourceAssocs tables dirs fmt).foldl
        (fun m p => dictUpdate m p.1 p.2) []) ((bqAssoc fmt t).1) = some v := by
      rw [lookupName_foldl_dictUpdate, hv]
    have hmem2 := mem_keys_of_lookupName_isSome _ _ _ hlk
    rw [register_views_eq]
    dsimp only
    rw [← hk1]
    exact hmem2
  · rw [register_views_eq]
    dsimp only
    simp [sourceAssocs, dictUpdate, bqAssoc, pyIndexNeg1_pysplit]

/-- Witness for C7 at the concrete identifier from the specification. -/
theorem table_view_name_last_dot_component_witness :
    "proj.dataset.table" ∈ ["proj.dataset.table"] ∧
    (pyIndexNeg1 (pysplit '.' "proj.dataset.table")
        = finalComponent '.' "proj.dataset.table" ∧
      finalComponent '.' "proj.dataset.table"
        ∈ ((register_views ["proj.dataset.table"] [] none).1).map Prod.fst ∧
      ((register_views ["proj.dataset.table"] [] none).1).map Prod.fst
        = [finalComponent '.' "proj.dataset.table"] ∧
      ((register_views ["proj.dataset.table"] [] none).1).map Prod.fst
        = ["table"]) :=
  ⟨by decide,
   table_view_name_last_dot_component ["proj.dataset.table"] [] none
     "proj.dataset.table" (by decide)⟩

/-- Claim C8: for every directory path the derived view name is its final path
segment, the substring after the last slash; in particular the path
/data/sales derives the view name sales. -/
theorem dir_view_name_last_path_segment (tables dirs : List String)
    (fmt : Option String) (d : String) (hd : d ∈ dirs) :
    pyIndexNeg1 (pysplit '/' d) = finalComponent '/' d ∧
    finalComponent '/' d ∈ ((register_views tables dirs fmt).1).map Prod.fst ∧
    ((register_views [] [d] fmt).1).map Prod.fst = [finalComponent '/' d] ∧
    ((register_views [] ["/data/sales"] none).1).map Prod.fst = ["sales"] := by
  have hk1 : (dirAssoc d).1 = finalComponent '/' d := by
    simp [dirAssoc, pyIndexNeg1_pysplit]
  refine ⟨pyIndexNeg1_pysplit '/' d, ?_, ?_, by decide⟩
  · have hkey : (dirAssoc d).1 ∈ (sourceAssocs tables dirs fmt).map Prod.fst := by
      unfold sourceAssocs
      rw [List.map_append]
      exact List.mem_append_right _
        (List.mem_map.mpr ⟨dirAssoc d, List.mem_map_of_mem _ hd, rfl⟩)
    obtain ⟨v, hv⟩ := lastWrite_isSome_of_mem _ _ hkey
    have hlk : lookupName ((sourceAssocs tables dirs fmt).foldl
        (fun m p => dictUpdate m p.1 p.2) []) ((dirAssoc d).1) = some v := by
      rw [lookupName_foldl_dictUpdate, hv]
    have hmem2 := mem_keys_of_lookupName_isSome _ _ _ hlk
    rw [register_views_eq]
    dsimp only
    rw [← hk1]
    exact hmem2
  · rw [register_views_eq]
    dsimp only
    simp [sourceAssocs, dictUpdate, dirAssoc, pyIndexNeg1_pysplit]

/-- Witness for C8 at the concrete path from the specification. -/
theorem dir_view_name_last_path_segment_witness :
    "/data/sales" ∈ ["/data/sales"] ∧
    (pyIndexNeg1 (pysplit '/' "/data/sales")
        = finalComponent '/' "/data/sales" ∧
      finalComponent '/' "/data/sales"
        ∈ ((register_views [] ["/data/sales"] none).1).map Prod.fst ∧
      ((register_views [] ["/data/sales"] none).1).map Prod.fst
        = [finalComponent '/' "/data/sales"] ∧
      ((register_views [] ["/data/sales"] none).1).map Prod.fst = ["sales"]) :=
  ⟨by decide,
   dir_view_name_last_path_segment [] ["/data/sales"] none "/data/sales"
     (by decide)⟩

/-- Claim C9: register_views invokes createTempView at most once per distinct
derived name: the createTempView names are exactly the keys of the staged
name-keyed map, hence duplicate-free, so every name has call count at most
one. -/
theorem create_temp_view_once_per_name (tables dirs : List String)
    (fmt : Option String) (name : String) :
    (viewNames (register_views tables dirs fmt).2).Nodup ∧
    (viewNames (register_views tables dirs fmt).2).count name ≤ 1 ∧
    viewNames (register_views tables dirs fmt).2 =
      ((register_views tables dirs fmt).1).map Prod.fst := by
  have h3 := viewNames_register_views tables dirs fmt
  have h1 : (viewNames (register_views tables dirs fmt).2).Nodup := by
    rw [h3]
    exact register_views_keys_nodup tables dirs fmt
  exact ⟨h1, List.nodup_iff_count_le_one.mp h1 name, h3⟩

/-- Claim C10: the record-format option is not part of the mutually exclusive
data-source group: an argument vector supplying it together with the
directory option, or with no data-source option at all, parses successfully;
and the hint has no effect on the views registered from directories alone. -/
theorem record_format_not_in_exclusive_group (script f dirsStr : String)
    (dirs : List String) (fmt fmt2 : Option String) :
    parse_args { sql_script := some script, bigquery_tables := none,
                 bigquery_record_format := some f, hcfs_dirs := some dirsStr } =
      .ok { sql_script := script, bigquery_tables := [],
            bigquery_record_format := some f, hcfs_dirs := pysplit ',' dirsStr } ∧
    parse_args { sql_script := some script, bigquery_tables := none,
                 bigquery_record_format := some f, hcfs_dirs := none } =
      .ok { sql_script := script, bigquery_tables := [],
            bigquery_record_format := some f, hcfs_dirs := [] } ∧
    register_views [] dirs fmt = register_views [] dirs fmt2 := by
  exact ⟨rfl, rfl, rfl⟩

/-- Claim C2 counterexample: the argument vector may supply the record-format
option with the empty string; the option is then supplied (it is some value),
yet the truthiness test in the source rejects it and the hint is not applied
to the reader, refuting the claimed if-and-only-if. -/
theorem record_format_iff_supplied_cex :
    (some "" : Option String).isSome = true ∧
    pyTruthy (some "") = false ∧
    hasRecordFormatOption (bigqueryReader "proj.dataset.t1" (some "")) = false ∧
    bigqueryReader "proj.dataset.t1" (some "") =
      { fmt := "bigquery", options := [("table", "proj.dataset.t1")] } := by
  refine ⟨rfl, rfl, rfl, rfl⟩

/-- Claim C2 as amended: the record-format hint is applied to a remote table
reader if and only if the supplied value is truthy (present and non-empty);
when it is not, the reader carries the source format and the table identifier
only.  A missing option is always falsy, and the reader built this way is the
one whose load call register_views issues for that table. -/
theorem record_format_applied_iff_truthy (t : String) (fmt : Option String) :
    hasRecordFormatOption (bigqueryReader t fmt) = pyTruthy fmt ∧
    (pyTruthy fmt = true →
      bigqueryReader t fmt =
        { fmt := "bigquery"
        , options := [("table", t), ("readDataFormat", fmt.getD "")] }) ∧
    (pyTruthy fmt = false →
      bigqueryReader t fmt =
        { fmt := "bigquery", options := [("table", t)] }) ∧
    (fmt = none → pyTruthy fmt = false) ∧
    ((register_views [t] [] fmt).2).head? =
      some (Call.load (bigqueryReader t fmt) none) := by
  refine ⟨?_, ?_, ?_, ?_, rfl⟩
  · cases hfm : pyTruthy fmt with
    | false =>
      simp [bigqueryReader, hfm, hasRecordFormatOption, DataFrameReader.option,
        DataFrameReader.format, sparkRead]
    | true =>
      simp [bigqueryReader, hfm, hasRecordFormatOption, DataFrameReader.option,
        DataFrameReader.format, sparkRead]
  · intro h
    simp [bigqueryReader, h, DataFrameReader.option, DataFrameReader.format,
      sparkRead]
  · intro h
    simp [bigqueryReader, h, DataFrameReader.option, DataFrameReader.format,
      sparkRead]
  · intro h
    rw [h]
    rfl

/-- Witness for the amended C2 at a truthy concrete format. -/
theorem record_format_applied_iff_truthy_witness :
    pyTruthy (some "AVRO") = true ∧
    bigqueryReader "p.d.t" (some "AVRO") =
      { fmt := "bigquery"
      , options := [("table", "p.d.t"), ("readDataFormat", "AVRO")] } :=
  ⟨rfl, (record_format_applied_iff_truthy "p.d.t" (some "AVRO")).2.1 rfl⟩

/-- Claim C4 counterexample: with tables a.b.t1 and a.b.t2 and directory
/x/t1, the name t1 collides across the groups; the dict keeps the first
insertion position of t1 while the directory DataFrame overwrites its value,
so the createTempView sequence registers a parquet view before a bigquery
view, refuting the claimed remote-before-directory registration order. -/
theorem registration_order_cex :
    viewFormats (register_views ["a.b.t1", "a.b.t2"] ["/x/t1"] none).2 =
      ["parquet", "bigquery"] ∧
    remotesBeforeDirs (register_views ["a.b.t1", "a.b.t2"] ["/x/t1"] none).2
      = false := by
  refine ⟨by decide, by decide⟩

/-- Claim C4 as amended: provided all derived view names are distinct across
the two lists, the createTempView sequence of register_views is exactly the
remote-table views in input-list order followed by the directory views in
input-list order. -/
theorem registration_order_of_distinct_names (tables dirs : List String)
    (fmt : Option String)
    (h : ((sourceAssocs tables dirs fmt).map Prod.fst).Nodup) :
    tempViews (register_views tables dirs fmt).2 =
      tables.map (fun t => Call.createTempView (bqAssoc fmt t).1 (bqAssoc fmt t).2)
        ++ dirs.map (fun d => Call.createTempView (dirAssoc d).1 (dirAssoc d).2) := by
  rw [tempViews_register_views, register_views_eq]
  dsimp only
  rw [foldl_dictUpdate_of_nodup _ [] (by simpa using h)]
  simp only [sourceAssocs, List.nil_append, List.map_append, List.map_map]
  rfl

/-- Witness for the amended C4 on a collision-free configuration. -/
theorem registration_order_of_distinct_names_witness :
    ((sourceAssocs ["a.b.t1"] ["/x/d1"] none).map Prod.fst).Nodup ∧
    tempViews (register_views ["a.b.t1"] ["/x/d1"] none).2 =
      ["a.b.t1"].map
        (fun t => Call.createTempView (bqAssoc none t).1 (bqAssoc none t).2)
        ++ ["/x/d1"].map
        (fun d => Call.createTempView (dirAssoc d).1 (dirAssoc d).2) :=
  ⟨by decide,
   registration_order_of_distinct_names ["a.b.t1"] ["/x/d1"] none (by decide)⟩

/-! ## Helper lemma: shape of a successful parse -/

theorem parse_args_ok_shape (a : Argv) (cfg : Config)
    (h : parse_args a = .ok cfg) :
    ¬(a.bigquery_tables.isSome = true ∧ a.hcfs_dirs.isSome = true) ∧
    cfg.bigquery_tables = (match a.bigquery_tables with
      | none => []
      | some s => pysplit ',' s) ∧
    cfg.hcfs_dirs = (match a.hcfs_dirs with
      | none => []
      | some s => pysplit ',' s) := by
  unfold parse_args at h
  by_cases hc : (a.bigquery_tables.isSome && a.hcfs_dirs.isSome) = true
  · rw [if_pos hc] at h
    cases h
  · rw [if_neg hc] at h
    cases hs : a.sql_script with
    | none =>
      rw [hs] at h
      cases h
    | some s =>
      rw [hs] at h
      injection h with h
      refine ⟨?_, ?_, ?_⟩
      · intro hboth
        exact hc (by rw [hboth.1, hboth.2]; rfl)
      · rw [← h]
      · rw [← h]

/-- Claim C1: the query result is displayed without truncation: main always
invokes show with java.lang.Integer.MAX_VALUE, the largest representable
maximum-row-count, as the row limit; no other show call occurs, and every
result set within that bound is printed in full. -/
theorem spark_show_uses_max_int (w : World) (cfg : Config) (sql : String)
    (rows : List Nat)
    (h1 : w.registerOutcome = .ok ())
    (h2 : w.readFile cfg.sql_script = .ok sql)
    (h3 : w.runQuery sql = .ok rows) :
    ∃ r, mainE w cfg = .ok r ∧
      r.calls.getLast? = some (Call.dfShow javaIntegerMaxValue) ∧
      (∀ n, Call.dfShow n ∈ r.calls → n = javaIntegerMaxValue) ∧
      r.printed = showRows rows javaIntegerMaxValue ∧
      (rows.length ≤ javaIntegerMaxValue → r.printed = rows) ∧
      javaIntegerMaxValue = 2 ^ 31 - 1 := by
  refine ⟨RunResult.mk
      (Call.getOrCreate
        :: (register_views cfg.bigquery_tables cfg.hcfs_dirs
            cfg.bigquery_record_format).2
        ++ [Call.sql sql, Call.dfShow javaIntegerMaxValue])
      (showRows rows javaIntegerMaxValue),
    ?_, ?_, ?_, rfl, ?_, by norm_num [javaIntegerMaxValue]⟩
  · unfold mainE
    rw [h1]
    dsimp only
    rw [h2]
    dsimp only
    rw [h3]
  · have hsplit : Call.getOrCreate
        :: (register_views cfg.bigquery_tables cfg.hcfs_dirs
            cfg.bigquery_record_format).2
        ++ [Call.sql sql, Call.dfShow javaIntegerMaxValue]
        = (Call.getOrCreate
            :: (register_views cfg.bigquery_tables cfg.hcfs_dirs
                cfg.bigquery_record_format).2
            ++ [Call.sql sql]) ++ [Call.dfShow javaIntegerMaxValue] := by
      simp
    rw [hsplit, List.getLast?_concat]
  · intro n hn
    simp at hn
    rcases hn with hn | hn
    · exact absurd hn (no_show_in_register _ _ _ n)
    · exact hn
  · intro hlen
    simp only [showRows]
    exact List.take_of_length_le hlen

/-- Witness for C1: a run whose query yields one row. -/
theorem spark_show_uses_max_int_witness :
    selectOneWorld.registerOutcome = .ok () ∧
    selectOneWorld.readFile cfgSimple.sql_script = .ok "SELECT 1" ∧
    selectOneWorld.runQuery "SELECT 1" = .ok [1] ∧
    (∃ r, mainE selectOneWorld cfgSimple = .ok r ∧
      r.calls.getLast? = some (Call.dfShow javaIntegerMaxValue) ∧
      (∀ n, Call.dfShow n ∈ r.calls → n = javaIntegerMaxValue) ∧
      r.printed = showRows [1] javaIntegerMaxValue ∧
      (([1] : List Nat).length ≤ javaIntegerMaxValue → r.printed = [1]) ∧
      javaIntegerMaxValue = 2 ^ 31 - 1) :=
  ⟨rfl, rfl, rfl,
   spark_show_uses_max_int selectOneWorld cfgSimple "SELECT 1" [1] rfl rfl rfl⟩

/-- Claim C5: an argument vector supplying both data-source options fails to
parse with a usage error, before any engine interaction: the process result
does not depend on the world, exits with the argparse code 2 (non-zero) and
produces no output; and every successfully parsed configuration has at most
one non-empty data-source list. -/
theorem mutually_exclusive_rejected (w w2 : World) (a : Argv)
    (hb : a.bigquery_tables.isSome = true) (hh : a.hcfs_dirs.isSome = true) :
    parse_args a = .error UsageError.mutuallyExclusiveOptions ∧
    runProcess w a = runProcess w2 a ∧
    (runProcess w a).exitCode = 2 ∧
    (runProcess w a).exitCode ≠ 0 ∧
    (runProcess w a).output = none ∧
    (∀ (a2 : Argv) (cfg : Config), parse_args a2 = .ok cfg →
      cfg.bigquery_tables = [] ∨ cfg.hcfs_dirs = []) := by
  have hpe : parse_args a = .error UsageError.mutuallyExclusiveOptions := by
    unfold parse_args
    rw [hb, hh]
    rfl
  have hrp : ∀ w3 : World, runProcess w3 a =
      { exitCode := 2, output := none
      , diagnostic := some (usageText UsageError.mutuallyExclusiveOptions) } := by
    intro w3
    unfold runProcess
    rw [hpe]
  refine ⟨hpe, (hrp w).trans (hrp w2).symm, by rw [hrp w],
    by rw [hrp w]; decide, ?_, ?_⟩
  · rw [hrp w]
  · intro a2 cfg hok
    obtain ⟨hnb, hbt, hhd⟩ := parse_args_ok_shape a2 cfg hok
    by_cases h1 : a2.bigquery_tables.isSome = true
    · right
      have h2 : ¬ a2.hcfs_dirs.isSome = true := fun hh2 => hnb ⟨h1, hh2⟩
      have hn : a2.hcfs_dirs = none := Option.not_isSome_iff_eq_none.mp h2
      rw [hhd, hn]
    · left
      have hn : a2.bigquery_tables = none := Option.not_isSome_iff_eq_none.mp h1
      rw [hbt, hn]

/-- Witness for C5 at an argument vector supplying both options. -/
theorem mutually_exclusive_rejected_witness :
    (Argv.mk (some "q.sql") (some "a.b.t") none (some "/d")).bigquery_tables.isSome
      = true ∧
    (Argv.mk (some "q.sql") (some "a.b.t") none (some "/d")).hcfs_dirs.isSome
      = true ∧
    (parse_args (Argv.mk (some "q.sql") (some "a.b.t") none (some "/d")) =
        .error UsageError.mutuallyExclusiveOptions ∧
      runProcess idleWorld (Argv.mk (some "q.sql") (some "a.b.t") none (some "/d"))
        = runProcess failReadWorld
            (Argv.mk (some "q.sql") (some "a.b.t") none (some "/d")) ∧
      (runProcess idleWorld
          (Argv.mk (some "q.sql") (some "a.b.t") none (some "/d"))).exitCode = 2 ∧
      (runProcess idleWorld
          (Argv.mk (some "q.sql") (some "a.b.t") none (some "/d"))).exitCode ≠ 0 ∧
      (runProcess idleWorld
          (Argv.mk (some "q.sql") (some "a.b.t") none (some "/d"))).output = none ∧
      (∀ (a2 : Argv) (cfg : Config), parse_args a2 = .ok cfg →
        cfg.bigquery_tables = [] ∨ cfg.hcfs_dirs = [])) :=
  ⟨rfl, rfl,
   mutually_exclusive_rejected idleWorld failReadWorld
     (Argv.mk (some "q.sql") (some "a.b.t") none (some "/d")) rfl rfl⟩

/-- Claim C6: every error raised during view registration, query-file reading
or query execution propagates out of main uncaught, with no retry and no
partial result, and ends the process with exit code 1 (non-zero) and the
diagnostic message of the error. -/
theorem errors_propagate_fatally (w : World) (cfg : Config) (e : Err)
    (a : Argv) (sql : String) :
    (w.registerOutcome = .error e → mainE w cfg = .error e) ∧
    (w.registerOutcome = .ok () → w.readFile cfg.sql_script = .error e →
      mainE w cfg = .error e) ∧
    (w.registerOutcome = .ok () → w.readFile cfg.sql_script = .ok sql →
      w.runQuery sql = .error e → mainE w cfg = .error e) ∧
    (parse_args a = .ok cfg → mainE w cfg = .error e →
      runProcess w a =
        { exitCode := 1, output := none, diagnostic := some (errMsg e) } ∧
      (runProcess w a).exitCode ≠ 0) := by
  refine ⟨?_, ?_, ?_, ?_⟩
  · intro h1
    unfold mainE
    rw [h1]
  · intro h1 h2
    unfold mainE
    rw [h1]
    dsimp only
    rw [h2]
  · intro h1 h2 h3
    unfold mainE
    rw [h1]
    dsimp only
    rw [h2]
    dsimp only
    rw [h3]
  · intro hpa hm
    have hrp : runProcess w a =
        { exitCode := 1, output := none, diagnostic := some (errMsg e) } := by
      unfold runProcess
      rw [hpa]
      dsimp only
      rw [hm]
    exact ⟨hrp, by rw [hrp]; exact one_ne_zero⟩

/-- Witness for C6: a world whose query-file read fails. -/
theorem errors_propagate_fatally_witness :
    failReadWorld.registerOutcome = .ok () ∧
    failReadWorld.readFile cfgSimple.sql_script =
      .error (Err.ioError "cannot read query file") ∧
    parse_args argvSimple = .ok cfgSimple ∧
    mainE failReadWorld cfgSimple = .error (Err.ioError "cannot read query file") ∧
    runProcess failReadWorld argvSimple =
      { exitCode := 1, output := none
      , diagnostic := some (errMsg (Err.ioError "cannot read query file")) } := by
  refine ⟨rfl, rfl, rfl, ?_, ?_⟩
  · exact (errors_propagate_fatally failReadWorld cfgSimple
      (Err.ioError "cannot read query file") argvSimple "").2.1 rfl rfl
  · exact ((errors_propagate_fatally failReadWorld cfgSimple
      (Err.ioError "cannot read query file") argvSimple "").2.2.2 rfl
      ((errors_propagate_fatally failReadWorld cfgSimple
        (Err.ioError "cannot read query file") argvSimple "").2.1 rfl rfl)).1
